import Mathlib

/-!
Verification development for the dprint-plugin-tailwindcss core
(sorter.rs, extractor.rs, parser.rs, integration.rs, lib.rs).

Strings are modelled as `List Char`.  All positions produced by the Rust
code are byte offsets that fall on UTF-8 character boundaries (they come
from regex match boundaries, substring searches and whole-pattern lengths),
and every character-class test used by the code is per-character, so the
character-list model with character indices is isomorphic to the byte
model on every execution path the code can take.  Rust's stable
`slice::sort` is modelled by a stable insertion sort (`insSort`); a stable
sort w.r.t. a total preorder is unique, so the two agree.  Operations that
can panic in Rust (string slicing, `replace_range`) are modelled either
with explicit `Option` results or totally with `List.take`/`List.drop`,
as noted at each definition.
-/

/-- Character list of a string literal (notation helper for concrete inputs). -/
def strL (s : String) : List Char := s.data

/-- Unicode `White_Space` test, the set used by Rust's `char::is_whitespace`
and by the `regex` crate's `\s` class (both follow Unicode `White_Space`). -/
def isWs (c : Char) : Bool :=
  (0x09 ≤ c.val && c.val ≤ 0x0D) || c.val == 0x20 || c.val == 0x85 ||
  c.val == 0xA0 || c.val == 0x1680 || (0x2000 ≤ c.val && c.val ≤ 0x200A) ||
  c.val == 0x2028 || c.val == 0x2029 || c.val == 0x202F || c.val == 0x205F ||
  c.val == 0x3000

/-- Models Rust `str::trim`: remove leading and trailing whitespace. -/
def trimWs (l : List Char) : List Char :=
  (l.dropWhile isWs).rdropWhile isWs

/-- Models Rust `str::split_whitespace`: split at every whitespace character
and drop the empty pieces (leading, trailing, and between consecutive
whitespace characters). -/
def splitWs (l : List Char) : List (List Char) :=
  (l.splitOnP isWs).filter (fun p => !p.isEmpty)

/-- Models joining string pieces with a single space (`Vec::join(" ")`). -/
def joinSpace : List (List Char) → List Char
  | [] => []
  | [o] => o
  | o :: rest => o ++ ' ' :: joinSpace rest

/-- Mirrors `struct TailwindClass` of sorter.rs. -/
structure TailwindClass where
  original : List Char
  important : Bool
  variants : List (List Char)
  base : List Char
  negative : Bool
  arbitrary : Bool
deriving Repr, DecidableEq

/-- Mirrors `TailwindClass::parse` of sorter.rs.  Note that the source
splits the remainder with a plain `split(':')`: there is no tracking of
brackets, parentheses or quotes. -/
def TailwindClass.parse (cls : List Char) : TailwindClass :=
  let c := trimWs cls
  let important := c.take 1 == ['!']
  let remaining := if important then c.drop 1 else c
  let parts := remaining.splitOn ':'
  let vb :=
    if parts.length > 1 then (parts.take (parts.length - 1), parts.getLastD [])
    else (([] : List (List Char)), parts.headD [])
  let negative := vb.2.take 1 == ['-']
  let baseNoNeg := if negative then vb.2.drop 1 else vb.2
  { original := c, important := important, variants := vb.1,
    base := baseNoNeg, negative := negative,
    arbitrary := baseNoNeg.contains '[' }

/-- Guard for a Rust byte-slicing step `&s[n..]`, which panics when `n`
is past the end (or not a boundary; the characters sliced here are the
one-byte `!` and `-`, so boundaries are automatic).  Returns `none` in
the panic case. -/
def sliceFrom (l : List Char) (n : Nat) : Option (List Char) :=
  if n ≤ l.length then some (l.drop n) else none

/-- Mirrors `TailwindClass::parse` once more, but with every fallible Rust
step (byte slicing, vector indexing) modelled by `Option`; `none` would
mean the Rust code panics.  Used to settle the totality claim. -/
def TailwindClass.parseChecked (cls : List Char) : Option TailwindClass :=
  let c := trimWs cls
  let important := c.take 1 == ['!']
  match (if important then sliceFrom c 1 else some c) with
  | none => none
  | some remaining =>
    let parts := remaining.splitOn ':'
    match (if parts.length > 1 then
             match parts.get? (parts.length - 1) with
             | none => none
             | some bp => some (parts.take (parts.length - 1), bp)
           else
             match parts.get? 0 with
             | none => none
             | some p0 => some (([] : List (List Char)), p0)) with
    | none => none
    | some vb =>
      let negative := vb.2.take 1 == ['-']
      match (if negative then sliceFrom vb.2 1 else some vb.2) with
      | none => none
      | some baseNoNeg =>
        some { original := c, important := important, variants := vb.1,
               base := baseNoNeg, negative := negative,
               arbitrary := baseNoNeg.contains '[' }

/-- Mirrors `TailwindClass::category_priority` of sorter.rs: the first
dash-delimited segment of the base is bucketed by the fixed catalogue. -/
def categoryPriority (base : List Char) : Nat :=
  let p := base.takeWhile (fun c => c != '-')
  if p ∈ [strL "container", strL "box", strL "block", strL "inline", strL "hidden"] then 100
  else if p ∈ [strL "float", strL "clear", strL "object", strL "overflow", strL "overscroll"] then 110
  else if p ∈ [strL "flex", strL "grow", strL "shrink", strL "basis", strL "order"] then 200
  else if p ∈ [strL "grid", strL "col", strL "row", strL "gap", strL "auto", strL "justify", strL "items", strL "content", strL "place"] then 210
  else if p ∈ [strL "m", strL "mx", strL "my", strL "mt", strL "mr", strL "mb", strL "ml", strL "margin"] then 300
  else if p ∈ [strL "p", strL "px", strL "py", strL "pt", strL "pr", strL "pb", strL "pl", strL "padding"] then 310
  else if p = strL "space" then 320
  else if p ∈ [strL "w", strL "width", strL "h", strL "height"] then 400
  else if p ∈ [strL "min", strL "max"] then 410
  else if p ∈ [strL "position", strL "static", strL "fixed", strL "absolute", strL "relative", strL "sticky"] then 500
  else if p ∈ [strL "top", strL "right", strL "bottom", strL "left", strL "inset"] then 510
  else if p = strL "z" then 520
  else if p ∈ [strL "font", strL "text", strL "tracking", strL "leading", strL "list", strL "align"] then 600
  else if p ∈ [strL "whitespace", strL "break", strL "truncate"] then 610
  else if p ∈ [strL "bg", strL "from", strL "via", strL "to"] then 700
  else if p ∈ [strL "border", strL "divide", strL "outline", strL "ring"] then 800
  else if p = strL "rounded" then 810
  else if p ∈ [strL "shadow", strL "opacity", strL "mix", strL "blur"] then 900
  else if p ∈ [strL "filter", strL "backdrop", strL "brightness", strL "contrast", strL "grayscale"] then 1000
  else if p ∈ [strL "caption", strL "table"] then 1100
  else if p ∈ [strL "transition", strL "duration", strL "ease", strL "delay", strL "animate"] then 1200
  else if p ∈ [strL "transform", strL "origin", strL "scale", strL "rotate", strL "translate", strL "skew"] then 1300
  else if p ∈ [strL "cursor", strL "select", strL "resize", strL "pointer", strL "appearance"] then 1400
  else if p ∈ [strL "fill", strL "stroke"] then 1500
  else if p ∈ [strL "sr", strL "screen"] then 1600
  else 9999

/-- Mirrors `TailwindClass::variant_priority` of sorter.rs. -/
def variantPriority (v : List Char) : Nat :=
  if v = strL "sm" then 100
  else if v = strL "md" then 110
  else if v = strL "lg" then 120
  else if v = strL "xl" then 130
  else if v = strL "2xl" then 140
  else if v = strL "dark" then 200
  else if v = strL "hover" then 300
  else if v = strL "focus" then 310
  else if v = strL "active" then 320
  else if v = strL "visited" then 330
  else if v = strL "disabled" then 340
  else if v = strL "enabled" then 350
  else if v = strL "group" then 400
  else if v = strL "peer" then 410
  else if v = strL "first" then 500
  else if v = strL "last" then 510
  else if v = strL "odd" then 520
  else if v = strL "even" then 530
  else 9999

/-- Lexicographic comparison of lists by an element comparator; this is the
semantics of Rust's derived `Ord` on `String`/slices (UTF-8 byte order on
strings equals code-point order, which is what comparing `Char`s gives). -/
def listCmp (c : α → α → Ordering) : List α → List α → Ordering
  | [], [] => .eq
  | [], _ :: _ => .lt
  | _ :: _, [] => .gt
  | a :: as, b :: bs => (c a b).then (listCmp c as bs)

/-- Comparison of one variant pair inside the `compare_variants` loop:
priority first, then the plain string comparison. -/
def variantCmp (v w : List Char) : Ordering :=
  (compare (variantPriority v) (variantPriority w)).then (listCmp compare v w)

/-- The zip-based loop of `TailwindClass::compare_variants`: compare
pairwise, ignoring any tail left over by `zip` truncation. -/
def zipCmp (c : α → α → Ordering) : List α → List α → Ordering
  | a :: as, b :: bs => (c a b).then (zipCmp c as bs)
  | _, _ => .eq

/-- Mirrors `TailwindClass::compare_variants` of sorter.rs: variant count
first, then the pairwise loop. -/
def compareVariants (a b : TailwindClass) : Ordering :=
  (compare a.variants.length b.variants.length).then
    (zipCmp variantCmp a.variants b.variants)

/-- Mirrors `impl Ord for TailwindClass` (`cmp`) of sorter.rs: the
seven-key early-return chain.  `Ordering.then` is exactly the Rust
`match ... { Ordering::Equal => continue, other => return other }`
pattern.  The Rust guard `!self.variants.is_empty() ||
!other.variants.is_empty()` around step 4 is mirrored by the `if`. -/
def cmpTW (a b : TailwindClass) : Ordering :=
  (compare a.important b.important).then
  ((compare (categoryPriority a.base) (categoryPriority b.base)).then
  ((compare a.variants.length b.variants.length).then
  ((if a.variants.isEmpty && b.variants.isEmpty then Ordering.eq
    else compareVariants a b).then
  ((compare a.negative b.negative).then
  ((compare a.arbitrary b.arbitrary).then
  (listCmp compare a.base b.base))))))

/-- The boolean `≤` induced by `cmpTW`; Rust's stable `sort` orders by
exactly this relation. -/
def leTW (a b : TailwindClass) : Bool :=
  match cmpTW a b with
  | .gt => false
  | _ => true

/-- Stable insertion: place `a` before the first element `b` with
`le a b`. -/
def insertLe (le : α → α → Bool) (a : α) : List α → List α
  | [] => [a]
  | b :: l => if le a b then a :: b :: l else b :: insertLe le a l

/-- Stable insertion sort.  Rust's `slice::sort` is a stable sort, and the
stable sort w.r.t. a total preorder is unique, so this computes exactly
what `parsed_classes.sort()` computes. -/
def insSort (le : α → α → Bool) : List α → List α
  | [] => []
  | a :: l => insertLe le a (insSort le l)

/-- Mirrors `sort_classes` of sorter.rs. -/
def sortClasses (classes : List Char) : List Char :=
  let trimmed := trimWs classes
  if trimmed.isEmpty then []
  else
    joinSpace ((insSort leTW ((splitWs trimmed).map TailwindClass.parse)).map
      (fun c => c.original))

/-- The backtick character (written via its code point). -/
def btick : Char := Char.ofNat 96

/-- Left brace character. -/
def lbrace : Char := Char.ofNat 123

/-- Right brace character. -/
def rbrace : Char := Char.ofNat 125

/-- Quote class of the attribute-value pattern `["']` in extractor.rs:
double or single quote only (no backtick). -/
def isQ2 (c : Char) : Bool := c == '"' || c == '\''

/-- Quote class of the string-literal pattern of
`extract_strings_from_args`: double quote, single quote or backtick. -/
def isQ3 (c : Char) : Bool := c == '"' || c == '\'' || c == btick

/-- Mirrors `struct ClassMatch` of extractor.rs.  `stop` models the Rust
field `end` (a Lean keyword). -/
structure ClassMatch where
  start : Nat
  stop : Nat
  content : List Char
deriving Repr, DecidableEq

/-- Attempt the pattern `ATTR=["']([^"']*)["']` at the start of the suffix
`s`.  Returns relative capture start, capture end, and match end.  The
pattern is anchored only at this suffix; the scanner tries every start
position, which is exactly the regex crate's leftmost-match semantics
(the greedy `[^"']*` run cannot backtrack into a successful match because
its characters are never closing quotes). -/
def matchAttrQ (attr : List Char) (s : List Char) : Option (Nat × Nat × Nat) :=
  if s.take attr.length = attr then
    match s.drop attr.length with
    | '=' :: q1 :: rest =>
      if isQ2 q1 then
        let content := rest.takeWhile (fun c => !(isQ2 c))
        match rest.drop content.length with
        | q2 :: _ =>
          if isQ2 q2 then
            some (attr.length + 2, attr.length + 2 + content.length,
                  attr.length + 2 + content.length + 1)
          else none
        | [] => none
      else none
    | _ => none
  else none

/-- Attempt the pattern `ATTR\s*=\s*\{([^}]+)\}` (the JSX-expression form)
at the start of the suffix `s`. -/
def matchAttrJsx (attr : List Char) (s : List Char) : Option (Nat × Nat × Nat) :=
  if s.take attr.length = attr then
    let after := s.drop attr.length
    let ws1 := after.takeWhile isWs
    match after.drop ws1.length with
    | '=' :: rest1 =>
      let ws2 := rest1.takeWhile isWs
      match rest1.drop ws2.length with
      | lb :: rest2 =>
        if lb == lbrace then
          let content := rest2.takeWhile (fun c => c != rbrace)
          if content.isEmpty then none
          else
            match rest2.drop content.length with
            | rb :: _ =>
              if rb == rbrace then
                let cs := attr.length + ws1.length + 1 + ws2.length + 1
                some (cs, cs + content.length, cs + content.length + 1)
              else none
            | [] => none
        else none
      | [] => none
    | _ => none
  else none

/-- Attempt the pattern `NAME\s*\(([^)]+)\)` (a function call) at the
start of the suffix `s`. -/
def matchFunc (fname : List Char) (s : List Char) : Option (Nat × Nat × Nat) :=
  if s.take fname.length = fname then
    let after := s.drop fname.length
    let ws := after.takeWhile isWs
    match after.drop ws.length with
    | lp :: rest =>
      if lp == '(' then
        let content := rest.takeWhile (fun c => c != ')')
        if content.isEmpty then none
        else
          match rest.drop content.length with
          | rp :: _ =>
            if rp == ')' then
              let cs := fname.length + ws.length + 1
              some (cs, cs + content.length, cs + content.length + 1)
            else none
          | [] => none
      else none
    | [] => none
  else none

/-- Attempt the `STRING_REGEX` pattern of extractor.rs,
`["'`]([^"'`]*)["'`]`, at the start of the suffix `s`. -/
def matchStr (s : List Char) : Option (Nat × Nat × Nat) :=
  match s with
  | q1 :: rest =>
    if isQ3 q1 then
      let content := rest.takeWhile (fun c => !(isQ3 c))
      match rest.drop content.length with
      | q2 :: _ =>
        if isQ3 q2 then some (1, 1 + content.length, content.length + 2)
        else none
      | [] => none
    else none
  | [] => none

/-- Driver of `captures_iter`: starting at position `p` of the remaining
suffix `s`, try the matcher at every position; on a match emit the
capture (absolute start, absolute end, captured characters) and resume
after the match.  `fuel` starts at the text length, which is always
sufficient since every step consumes at least one character (all our
patterns have positive match length, and `max me 1` makes that
manifest). -/
def scanWith (M : List Char → Option (Nat × Nat × Nat)) :
    Nat → List Char → Nat → List (Nat × Nat × List Char)
  | 0, _, _ => []
  | _ + 1, [], _ => []
  | fuel + 1, s@(_ :: rest), p =>
    match M s with
    | some (cs, ce, me) =>
      (p + cs, p + ce, (s.drop cs).take (ce - cs)) ::
        scanWith M fuel (s.drop (max me 1)) (p + max me 1)
    | none => scanWith M fuel rest (p + 1)

/-- Run a matcher over a whole text (all of `captures_iter`). -/
def scanAll (M : List Char → Option (Nat × Nat × Nat)) (text : List Char) :
    List (Nat × Nat × List Char) :=
  scanWith M text.length text 0

/-- The quoted-attribute half of `extract_from_attributes`: push a span
for every regex capture whose content is not whitespace-only. -/
def extractAttrQuoted (attr text : List Char) : List ClassMatch :=
  (scanAll (matchAttrQ attr) text).filterMap fun t =>
    if (trimWs t.2.2).isEmpty then none
    else some ⟨t.1, t.2.1, t.2.2⟩

/-- Mirrors `extract_strings_from_args` of extractor.rs: string literals
inside an argument slice, skipping literals containing `$` and empty
literals; positions are shifted by the slice's base offset. -/
def extractStringsFromArgs (args : List Char) (base : Nat) : List ClassMatch :=
  (scanAll matchStr args).filterMap fun t =>
    if t.2.2.contains '$' || t.2.2.isEmpty then none
    else some ⟨base + t.1, base + t.2.1, t.2.2⟩

/-- The JSX-brace half of `extract_from_attributes`: for each
`ATTR={EXPR}` capture, extract the string literals of `EXPR`
(via `extract_from_jsx_expression`, which simply forwards to
`extract_strings_from_args`). -/
def extractAttrJsx (attr text : List Char) : List ClassMatch :=
  (scanAll (matchAttrJsx attr) text).flatMap fun t =>
    extractStringsFromArgs t.2.2 t.1

/-- Mirrors `ClassExtractor::extract_from_attributes`: for each configured
attribute name, all quoted-form matches then all JSX-brace matches. -/
def extractFromAttributes (attrs : List (List Char)) (text : List Char) :
    List ClassMatch :=
  attrs.flatMap fun a => extractAttrQuoted a text ++ extractAttrJsx a text

/-- Mirrors `ClassExtractor::extract_from_functions`. -/
def extractFromFunctions (funcs : List (List Char)) (text : List Char) :
    List ClassMatch :=
  funcs.flatMap fun f =>
    (scanAll (matchFunc f) text).flatMap fun t =>
      extractStringsFromArgs t.2.2 t.1

/-- Tail of `Vec::dedup_by`: drop each element equal (on `(start, stop)`)
to the last kept element. -/
def dedupAux (prev : ClassMatch) : List ClassMatch → List ClassMatch
  | [] => []
  | b :: t =>
    if prev.start == b.start && prev.stop == b.stop then dedupAux prev t
    else b :: dedupAux b t

/-- Models `matches.dedup_by(|a, b| a.start == b.start && a.end == b.end)`:
keep the first element of every run of consecutive duplicates. -/
def dedupSpans : List ClassMatch → List ClassMatch
  | [] => []
  | a :: t => a :: dedupAux a t

/-- Mirrors `ClassExtractor::extract_all`: attributes then functions,
stable-sorted by `start` (`sort_by_key`), then consecutive `(start, end)`
duplicates removed. -/
def extractAll (funcs attrs : List (List Char)) (text : List Char) :
    List ClassMatch :=
  dedupSpans (insSort (fun a b => a.start ≤ b.start)
    (extractFromAttributes attrs text ++ extractFromFunctions funcs text))

/-- Slice `content[a..b]` of a character list.  Rust string slicing panics
when `a > b` or `b > len`; this total model returns the empty/truncated
list there instead, and every theorem that relies on a slice carries
hypotheses placing it in the non-panicking range. -/
def sliceL (l : List Char) (a b : Nat) : List Char := (l.drop a).take (b - a)

/-- First index at which `pat` occurs as a contiguous sublist (Rust
`str::find` with a string or character pattern). -/
def findSubstr (pat : List Char) : List Char → Option Nat
  | [] => if pat.isEmpty then some 0 else none
  | l@(_ :: rest) =>
    if l.take pat.length = pat then some 0
    else (findSubstr pat rest).map (· + 1)

/-- Mirrors `enum FileFormat` of parser.rs. -/
inductive FileFormat where
  | Html | Jsx | Tsx | Vue | Svelte | Astro
deriving Repr, DecidableEq

/-- Last `.`-separated segment of a path (Rust `path.split('.').last()`,
also `next_back()`); yields the whole path when it has no dot. -/
def lastDotSegment (path : List Char) : List Char :=
  (path.splitOn '.').getLastD []

/-- ASCII lowercasing of the extension (Rust `to_lowercase`; extensions
compared against are ASCII, where the two coincide). -/
def toLowerL (l : List Char) : List Char := l.map Char.toLower

/-- Mirrors `FileFormat::from_path` of parser.rs. -/
def FileFormat.fromPath (path : List Char) : Option FileFormat :=
  let ext := toLowerL (lastDotSegment path)
  if ext = strL "html" || ext = strL "htm" then some .Html
  else if ext = strL "jsx" then some .Jsx
  else if ext = strL "tsx" then some .Tsx
  else if ext = strL "vue" then some .Vue
  else if ext = strL "svelte" then some .Svelte
  else if ext = strL "astro" then some .Astro
  else none

/-- Mirrors `struct ContentSection` of parser.rs. -/
structure ContentSection where
  start : Nat
  content : List Char
deriving Repr, DecidableEq

/-- Mirrors `extract_vue_template` of parser.rs: position after the `>` of
the first `<template` tag, and the slice up to the first `</template>`
anywhere in the buffer.  (When that first `</template>` lies before the
content start the Rust slice `content[start..end]` panics; `sliceL` is
total, and theorems about this function assume the in-order case.) -/
def extractVueTemplate (content : List Char) : Option ContentSection :=
  match findSubstr (strL "<template") content with
  | none => none
  | some ts =>
    match findSubstr ['>'] (content.drop ts) with
    | none => none
    | some gtRel =>
      let cstart := gtRel + ts + 1
      match findSubstr (strL "</template>") content with
      | none => none
      | some tend => some ⟨cstart, sliceL content cstart tend⟩

/-- The `while let` loops of `extract_svelte_markup_sections` that collect
`(abs_start, abs_end)` ranges of `openPat … closePat` pairs; the fuel
starts above the content length, which suffices because every iteration
advances the search position by at least the closing pattern's length. -/
def collectRanges (openPat closePat content : List Char) :
    Nat → Nat → List (Nat × Nat)
  | 0, _ => []
  | fuel + 1, pos =>
    match findSubstr openPat (content.drop pos) with
    | none => []
    | some rel =>
      let absStart := pos + rel
      match findSubstr closePat (content.drop absStart) with
      | none => []
      | some rel2 =>
        let absEnd := absStart + rel2 + closePat.length
        (absStart, absEnd) :: collectRanges openPat closePat content fuel absEnd

/-- The section-building loop of `extract_svelte_markup_sections`. -/
def buildSections (content : List Char) :
    List (Nat × Nat) → Nat → List ContentSection
  | [], pos =>
    if pos < content.length then [⟨pos, content.drop pos⟩] else []
  | (s, e) :: rest, pos =>
    if pos < s then ⟨pos, sliceL content pos s⟩ :: buildSections content rest e
    else buildSections content rest e

/-- Mirrors `extract_svelte_markup_sections` of parser.rs. -/
def extractSvelteSections (content : List Char) : List ContentSection :=
  let scripts := collectRanges (strL "<script") (strL "</script>") content
    (content.length + 1) 0
  let styles := collectRanges (strL "<style") (strL "</style>") content
    (content.length + 1) 0
  let ranges := insSort (fun a b => a.1 ≤ b.1) (scripts ++ styles)
  let sections := buildSections content ranges 0
  if sections.isEmpty then [⟨0, content⟩] else sections

/-- Mirrors `find_astro_frontmatter_end` of parser.rs. -/
def findAstroFrontmatterEnd (content : List Char) : Option Nat :=
  if !((strL "---").isPrefixOf (content.dropWhile isWs)) then none
  else
    match findSubstr (strL "---") content with
    | none => none
    | some f1 =>
      let start := f1 + 3
      match findSubstr (strL "---") (content.drop start) with
      | none => none
      | some f2 =>
        let e := f2 + start + 3
        match findSubstr ['\n'] (content.drop e) with
        | some nl => some (e + nl + 1)
        | none => some e

/-- Shift a span by a section offset. -/
def shiftMatch (off : Nat) (m : ClassMatch) : ClassMatch :=
  ⟨m.start + off, m.stop + off, m.content⟩

/-- Mirrors `FormatParser::parse_html`. -/
def parseHtml (funcs attrs : List (List Char)) (content : List Char) :
    List ClassMatch :=
  extractFromAttributes attrs content ++ extractFromFunctions funcs content

/-- Mirrors `FormatParser::parse_jsx` (also used for Tsx).  Attribute
matches and function matches are concatenated; there is no sorting and no
de-duplication here. -/
def parseJsx (funcs attrs : List (List Char)) (content : List Char) :
    List ClassMatch :=
  extractFromAttributes attrs content ++ extractFromFunctions funcs content

/-- Mirrors `FormatParser::parse_vue`. -/
def parseVue (funcs attrs : List (List Char)) (content : List Char) :
    List ClassMatch :=
  match extractVueTemplate content with
  | some sec =>
    (extractFromAttributes attrs sec.content).map (shiftMatch sec.start) ++
    (extractFromFunctions funcs sec.content).map (shiftMatch sec.start)
  | none =>
    extractFromAttributes attrs content ++ extractFromFunctions funcs content

/-- Mirrors `FormatParser::parse_svelte` (attribute extraction only). -/
def parseSvelte (attrs : List (List Char)) (content : List Char) :
    List ClassMatch :=
  (extractSvelteSections content).flatMap fun sec =>
    (extractFromAttributes attrs sec.content).map (shiftMatch sec.start)

/-- Mirrors `FormatParser::parse_astro`. -/
def parseAstro (funcs attrs : List (List Char)) (content : List Char) :
    List ClassMatch :=
  let mstart := (findAstroFrontmatterEnd content).getD 0
  let markup := content.drop mstart
  (extractFromAttributes attrs markup).map (shiftMatch mstart) ++
  (extractFromFunctions funcs markup).map (shiftMatch mstart)

/-- Mirrors `FormatParser::parse`. -/
def parserParse (funcs attrs : List (List Char)) (content : List Char) :
    FileFormat → List ClassMatch
  | .Html => parseHtml funcs attrs content
  | .Jsx | .Tsx => parseJsx funcs attrs content
  | .Vue => parseVue funcs attrs content
  | .Svelte => parseSvelte attrs content
  | .Astro => parseAstro funcs attrs content

/-- Mirrors `PluginCompatibility::should_format` of integration.rs. -/
def shouldFormat (path : List Char) : Bool :=
  let ext := toLowerL (lastDotSegment path)
  if ext ∈ [strL "html", strL "htm", strL "jsx", strL "tsx", strL "vue",
            strL "svelte", strL "astro"] then true
  else if ext ∈ [strL "json", strL "jsonc", strL "yaml", strL "yml"] then false
  else if ext ∈ [strL "ts", strL "js", strL "mjs", strL "cjs"] then true
  else if ext ∈ [strL "md", strL "mdx"] then true
  else true

/-- Mirrors `PluginCompatibility::should_defer` of integration.rs. -/
def shouldDefer (path : List Char) : Bool :=
  let ext := toLowerL (lastDotSegment path)
  if ext ∈ [strL "json", strL "jsonc"] then true
  else if ext = strL "toml" then true
  else if ext ∈ [strL "yaml", strL "yml"] then true
  else false

/-- Models `String::replace_range(start..stop, r)` in the in-bounds case;
the driver loop below performs the bounds checks that make Rust panic
instead. -/
def replaceRange (l : List Char) (start stop : Nat) (r : List Char) :
    List Char :=
  l.take start ++ r ++ l.drop stop

/-- Mirrors the replacement loop of `TailwindCssPluginHandler::format` in
lib.rs: walk the matches in the order returned by the parser, keep a
running `i32` offset, and `replace_range` each span whose sorted form
differs.  `none` models a Rust panic: a negative computed position
(`as usize` would wrap far out of bounds), an inverted range, or a range
end past the buffer all make `replace_range` panic. -/
def driverLoop : List ClassMatch → List Char → Int → Option (List Char)
  | [], result, _ => some result
  | m :: rest, result, offset =>
    let sorted := sortClasses m.content
    if sorted = m.content then driverLoop rest result offset
    else
      let s : Int := (m.start : Int) + offset
      let e : Int := (m.stop : Int) + offset
      if s < 0 || e < s || (result.length : Int) < e then none
      else
        driverLoop rest (replaceRange result s.toNat e.toNat sorted)
          (offset + (sorted.length : Int) - (m.content.length : Int))

/-- Mirrors `TailwindCssPluginHandler::format` of lib.rs (after UTF-8
decoding, which the character-list model presupposes).  The outer `Option`
is `none` on a Rust panic; the inner `Option` is the plugin's
`Ok(None)` (no change) versus `Ok(Some(bytes))`. -/
def formatCore (enabled : Bool) (funcs attrs : List (List Char))
    (path text : List Char) : Option (Option (List Char)) :=
  if !enabled then some none
  else if !(shouldFormat path) then some none
  else if shouldDefer path then some none
  else
    let ms :=
      match FileFormat.fromPath path with
      | some fmt => parserParse funcs attrs text fmt
      | none =>
        extractFromAttributes attrs text ++ extractFromFunctions funcs text
    if ms.isEmpty then some none
    else
      match driverLoop ms text 0 with
      | none => none
      | some result =>
        if result = text then some none else some (some result)

/-- Default `tailwindFunctions` of config.rs. -/
def defaultFuncs : List (List Char) :=
  [strL "classnames", strL "clsx", strL "ctl", strL "cva", strL "tw"]

/-- Default `tailwindAttributes` of config.rs. -/
def defaultAttrs : List (List Char) := [strL "class", strL "className"]

/-- The `Ordering`-chain built from `compareLex`, pointwise equal to
`cmpTW`; used only to derive the order-theoretic laws of `cmpTW`. -/
def cmpLex : TailwindClass → TailwindClass → Ordering :=
  compareLex (fun a b => compare a.important b.important)
  (compareLex (fun a b => compare (categoryPriority a.base) (categoryPriority b.base))
  (compareLex (fun a b => compare a.variants.length b.variants.length)
  (compareLex (fun a b => listCmp variantCmp a.variants b.variants)
  (compareLex (fun a b => compare a.negative b.negative)
  (compareLex (fun a b => compare a.arbitrary b.arbitrary)
  (fun a b => listCmp compare a.base b.base))))))

/-- Concrete HTML input used to exercise the rewrite driver: the function
match precedes the attribute match in the text, but the parser returns
the attribute match first. -/
def c1Input : List Char := strL "clsx(\"a  b\") <p class=\"z-10  p-4\">"

/-- What the driver produces on `c1Input`: the quote before `a  b` has
been overwritten because the second replacement used an offset computed
from a replacement that happened *after* it in the buffer. -/
def c1Output : List Char := strL "clsx(a bb\") <p class=\"p-4 z-10\">"

/-- JSX input whose configured function call sits inside the configured
attribute's brace expression. -/
def jsxInput : List Char := strL "<div className=\x7bclsx(\"p-4 m-2\")\x7d />"

/-- Vue input: a script with the literal `"m-1"` before the template; the
template holds a `tw(…)` call (earlier position) and a `class` attribute
(later position) whose class run contains a long whitespace gap. -/
def vueInput : List Char :=
  strL "<script>let a=\"m-1\";</script><template>tw(\"x  y\") <i class=\"z-10                             p-4\"></template>"

/-- The template interior of `vueInput`. -/
def vueInterior : List Char :=
  strL "tw(\"x  y\") <i class=\"z-10                             p-4\">"

/-- What the driver produces on `vueInput`: the script literal `"m-1"`
has been destroyed. -/
def vueOutput : List Char :=
  strL "<script>let a=\"x y;</script><template>tw(\"x  y\") <i class=\"p-4 z-10\"></template>"

/-! ### Order-theoretic laws of the comparator -/

theorem zipCmp_eq_listCmp (c : α → α → Ordering) :
    ∀ l1 l2 : List α, l1.length = l2.length → zipCmp c l1 l2 = listCmp c l1 l2 := by
  intro l1
  induction l1 with
  | nil => intro l2 h; cases l2 with
    | nil => rfl
    | cons b bs => simp at h
  | cons a as ih =>
    intro l2 h
    cases l2 with
    | nil => simp at h
    | cons b bs =>
      simp only [List.length_cons, Nat.succ.injEq] at h
      simp [zipCmp, listCmp, ih bs h]

theorem listCmp_swap {c : α → α → Ordering} [inst : Batteries.OrientedCmp c] :
    ∀ l1 l2 : List α, (listCmp c l1 l2).swap = listCmp c l2 l1 := by
  intro l1
  induction l1 with
  | nil => intro l2; cases l2 <;> rfl
  | cons a as ih =>
    intro l2
    cases l2 with
    | nil => rfl
    | cons b bs => simp [listCmp, Ordering.swap_then, inst.symm a b, ih bs]

theorem listCmp_orientedCmp {c : α → α → Ordering} [Batteries.OrientedCmp c] :
    Batteries.OrientedCmp (listCmp c) :=
  ⟨fun l1 l2 => listCmp_swap l1 l2⟩

theorem listCmp_le_trans {c : α → α → Ordering} [Batteries.TransCmp c] :
    ∀ x y z : List α,
      listCmp c x y ≠ .gt → listCmp c y z ≠ .gt → listCmp c x z ≠ .gt := by
  intro x
  induction x with
  | nil =>
    intro y z _ _
    cases z <;> simp [listCmp]
  | cons a as ih =>
    intro y z h1 h2
    cases y with
    | nil => simp [listCmp] at h1
    | cons b bs =>
      cases z with
      | nil => simp [listCmp] at h2
      | cons d ds =>
        simp only [listCmp, ne_eq, Ordering.then_eq_gt, not_or, not_and] at h1 h2 ⊢
        obtain ⟨hab, hab2⟩ := h1
        obtain ⟨hbd, hbd2⟩ := h2
        refine ⟨Batteries.TransCmp.le_trans hab hbd, fun had => ?_⟩
        match hab' : c a b with
        | .gt => exact absurd hab' hab
        | .eq =>
          have hbd' : c b d = .eq := by
            rw [← Batteries.TransCmp.cmp_congr_left hab']
            exact had
          exact ih bs ds (hab2 hab') (hbd2 hbd')
        | .lt =>
          exfalso
          apply hbd
          rw [Batteries.OrientedCmp.cmp_eq_gt]
          have hda : c d a = .eq := Batteries.OrientedCmp.cmp_eq_eq_symm.mp had
          rw [Batteries.TransCmp.cmp_congr_left hda]
          exact hab'

theorem listCmp_transCmp {c : α → α → Ordering} [Batteries.TransCmp c] :
    Batteries.TransCmp (listCmp c) :=
  { listCmp_orientedCmp with
    le_trans := fun h1 h2 => listCmp_le_trans _ _ _ h1 h2 }

theorem transCmp_on {c : β → β → Ordering} (h : Batteries.TransCmp c) (f : α → β) :
    Batteries.TransCmp (fun a b => c (f a) (f b)) :=
  { symm := fun x y => h.symm (f x) (f y),
    le_trans := fun h1 h2 => h.le_trans h1 h2 }

theorem variantCmp_transCmp : Batteries.TransCmp variantCmp := by
  have hN : Batteries.TransCmp (compare : Nat → Nat → Ordering) := inferInstance
  have hC : Batteries.TransCmp (compare : Char → Char → Ordering) := inferInstance
  haveI := transCmp_on hN variantPriority
  haveI : Batteries.TransCmp (listCmp (compare : Char → Char → Ordering)) :=
    listCmp_transCmp
  have hv : variantCmp =
      compareLex (fun v w => compare (variantPriority v) (variantPriority w))
        (listCmp compare) := rfl
  rw [hv]
  infer_instance

theorem cmpLex_transCmp : Batteries.TransCmp cmpLex := by
  have hN : Batteries.TransCmp (compare : Nat → Nat → Ordering) := inferInstance
  have hB : Batteries.TransCmp (compare : Bool → Bool → Ordering) := inferInstance
  have hC : Batteries.TransCmp (compare : Char → Char → Ordering) := inferInstance
  haveI := transCmp_on hB (fun t : TailwindClass => t.important)
  haveI := transCmp_on hN (fun t : TailwindClass => categoryPriority t.base)
  haveI := transCmp_on hN (fun t : TailwindClass => t.variants.length)
  haveI : Batteries.TransCmp variantCmp := variantCmp_transCmp
  haveI : Batteries.TransCmp (listCmp variantCmp) := listCmp_transCmp
  haveI := transCmp_on (listCmp_transCmp (c := variantCmp))
    (fun t : TailwindClass => t.variants)
  haveI := transCmp_on hB (fun t : TailwindClass => t.negative)
  haveI := transCmp_on hB (fun t : TailwindClass => t.arbitrary)
  haveI := transCmp_on (listCmp_transCmp (c := (compare : Char → Char → Ordering)))
    (fun t : TailwindClass => t.base)
  unfold cmpLex
  infer_instance

theorem cmpTW_eq_cmpLex : ∀ a b, cmpTW a b = cmpLex a b := by
  intro a b
  unfold cmpTW cmpLex compareLex
  rcases h3 : compare a.variants.length b.variants.length with _ | _ | _
  · simp [h3, Ordering.then]
  · have hlen : a.variants.length = b.variants.length := Nat.compare_eq_eq.mp h3
    have h4 : (if a.variants.isEmpty && b.variants.isEmpty then Ordering.eq
        else compareVariants a b) = listCmp variantCmp a.variants b.variants := by
      by_cases hae : a.variants = []
      · have hbe : b.variants = [] := by
          rw [hae] at hlen
          exact List.length_eq_zero.mp hlen.symm
        simp [hae, hbe, listCmp]
      · have hane : a.variants.isEmpty = false := List.isEmpty_eq_false.mpr hae
        simp only [hane, Bool.false_and, if_neg Bool.false_ne_true, compareVariants, h3,
          Ordering.then]
        exact zipCmp_eq_listCmp _ _ _ hlen
    simp only [h3, h4]
  · simp [h3, Ordering.then]

theorem cmpTW_transCmp : Batteries.TransCmp cmpTW := by
  have h : cmpTW = cmpLex := funext fun a => funext fun b => cmpTW_eq_cmpLex a b
  rw [h]
  exact cmpLex_transCmp

theorem leTW_eq_true_iff (a b : TailwindClass) :
    leTW a b = true ↔ cmpTW a b ≠ .gt := by
  unfold leTW
  rcases h : cmpTW a b with _ | _ | _ <;> simp

theorem leTW_trans : ∀ a b c : TailwindClass,
    leTW a b = true → leTW b c = true → leTW a c = true := by
  intro a b c h1 h2
  haveI := cmpTW_transCmp
  rw [leTW_eq_true_iff] at h1 h2 ⊢
  exact Batteries.TransCmp.le_trans h1 h2

theorem leTW_total : ∀ a b : TailwindClass, leTW a b || leTW b a := by
  intro a b
  haveI := cmpTW_transCmp
  rcases h : cmpTW a b with _ | _ | _
  · simp [leTW, h]
  · simp [leTW, h]
  · have : cmpTW b a = .lt := Batteries.OrientedCmp.cmp_eq_gt.mp h
    simp [leTW, this]

/-! ### Stable insertion sort: permutation, sortedness, fixed points -/

theorem insertLe_perm (le : α → α → Bool) (a : α) :
    ∀ l : List α, (insertLe le a l).Perm (a :: l) := by
  intro l
  induction l with
  | nil => exact List.Perm.refl _
  | cons b t ih =>
    unfold insertLe
    by_cases h : le a b
    · simp [h]
    · simp only [h, Bool.false_eq_true, if_false]
      exact (ih.cons b).trans (List.Perm.swap a b t)

theorem insSort_perm (le : α → α → Bool) :
    ∀ l : List α, (insSort le l).Perm l := by
  intro l
  induction l with
  | nil => exact List.Perm.refl _
  | cons a t ih =>
    exact (insertLe_perm le a (insSort le t)).trans (ih.cons a)

theorem pairwise_insertLe {le : α → α → Bool}
    (htot : ∀ x y, le x y || le y x)
    (htr : ∀ x y z, le x y = true → le y z = true → le x z = true)
    (a : α) :
    ∀ l : List α, l.Pairwise (fun x y => le x y = true) →
      (insertLe le a l).Pairwise (fun x y => le x y = true) := by
  intro l
  induction l with
  | nil => intro _; simp [insertLe]
  | cons b t ih =>
    intro h
    rw [List.pairwise_cons] at h
    obtain ⟨hb, ht⟩ := h
    unfold insertLe
    by_cases hab : le a b = true
    · rw [if_pos hab, List.pairwise_cons]
      refine ⟨?_, List.pairwise_cons.mpr ⟨hb, ht⟩⟩
      intro x hx
      rcases List.mem_cons.mp hx with hx' | hx'
      · subst hx'; exact hab
      · exact htr a b x hab (hb x hx')
    · rw [if_neg hab, List.pairwise_cons]
      constructor
      · intro x hx
        have hx' := ((insertLe_perm le a t).mem_iff).mp hx
        rcases List.mem_cons.mp hx' with hx'' | hx''
        · rw [hx'']
          have h1 := htot a b
          rcases Bool.or_eq_true_iff.mp h1 with h' | h'
          · exact absurd h' hab
          · exact h'
        · exact hb x hx''
      · exact ih ht

theorem insSort_pairwise {le : α → α → Bool}
    (htot : ∀ x y, le x y || le y x)
    (htr : ∀ x y z, le x y = true → le y z = true → le x z = true) :
    ∀ l : List α, (insSort le l).Pairwise (fun x y => le x y = true) := by
  intro l
  induction l with
  | nil => simp [insSort]
  | cons a t ih => exact pairwise_insertLe htot htr a _ ih

theorem insSort_of_pairwise {le : α → α → Bool} :
    ∀ {l : List α}, l.Pairwise (fun x y => le x y = true) → insSort le l = l := by
  intro l
  induction l with
  | nil => intro _; rfl
  | cons a t ih =>
    intro h
    rw [List.pairwise_cons] at h
    obtain ⟨ha, ht⟩ := h
    show insertLe le a (insSort le t) = a :: t
    rw [ih ht]
    cases t with
    | nil => rfl
    | cons b t' =>
      unfold insertLe
      simp [ha b (List.mem_cons_self b t')]

/-! ### Whitespace splitting and joining -/

theorem splitOnP_chunk {pr : α → Bool} :
    ∀ l : List α, ∀ p ∈ l.splitOnP pr, ∀ c ∈ p, pr c = false := by
  intro l
  induction l with
  | nil =>
    intro p hp c hc
    simp [List.splitOnP_nil] at hp
    subst hp
    simp at hc
  | cons a t ih =>
    intro p hp c hc
    rw [List.splitOnP_cons] at hp
    by_cases ha : pr a = true
    · rw [if_pos ha, List.mem_cons] at hp
      rcases hp with hp | hp
      · subst hp; simp at hc
      · exact ih p hp c hc
    · rw [if_neg ha] at hp
      rcases hsp : t.splitOnP pr with _ | ⟨h1, t1⟩
      · exact absurd hsp (List.splitOnP_ne_nil _ t)
      · rw [hsp, List.modifyHead_cons, List.mem_cons] at hp
        rcases hp with hp | hp
        · subst hp
          rcases List.mem_cons.mp hc with hc' | hc'
          · subst hc'; simpa using ha
          · exact ih (h1) (by rw [hsp]; exact List.mem_cons_self _ _) c hc'
        · exact ih p (by rw [hsp]; exact List.mem_cons_of_mem _ hp) c hc

theorem splitWs_pieces :
    ∀ l : List Char, ∀ p ∈ splitWs l, p ≠ [] ∧ ∀ c ∈ p, isWs c = false := by
  intro l p hp
  unfold splitWs at hp
  rw [List.mem_filter] at hp
  obtain ⟨hmem, hne⟩ := hp
  exact ⟨List.isEmpty_eq_false.mp (Bool.not_eq_true' .. ▸ hne),
    splitOnP_chunk l p hmem⟩

theorem isWs_space : isWs ' ' = true := by decide

theorem splitWs_join :
    ∀ os : List (List Char), os ≠ [] →
      (∀ o ∈ os, o ≠ [] ∧ ∀ c ∈ o, isWs c = false) →
      splitWs (joinSpace os) = os := by
  intro os
  induction os with
  | nil => intro h; exact absurd rfl h
  | cons o rest ih =>
    intro _ hprops
    obtain ⟨hone, howf⟩ := hprops o (List.mem_cons_self o rest)
    cases rest with
    | nil =>
      show splitWs o = [o]
      unfold splitWs
      rw [List.splitOnP_eq_single _ _ (by intro x hx; simp [howf x hx])]
      simp [List.isEmpty_eq_false.mpr hone]
    | cons o2 rest2 =>
      have hj : joinSpace (o :: o2 :: rest2) = o ++ ' ' :: joinSpace (o2 :: rest2) := rfl
      rw [hj]
      unfold splitWs
      rw [List.splitOnP_first _ _ (by intro x hx; simp [howf x hx]) ' ' isWs_space]
      rw [List.filter_cons]
      simp only [List.isEmpty_eq_false.mpr hone, Bool.not_false, if_true]
      have := ih (List.cons_ne_nil o2 rest2)
        (fun x hx => hprops x (List.mem_cons_of_mem o hx))
      unfold splitWs at this
      rw [this]

theorem dropWhile_head_false {p : α → Bool} :
    ∀ {l : List α} {c : α} {t : List α}, l.dropWhile p = c :: t → p c = false := by
  intro l
  induction l with
  | nil => intro c t h; simp [List.dropWhile] at h
  | cons a l ih =>
    intro c t h
    rw [List.dropWhile_cons] at h
    by_cases ha : p a = true
    · rw [if_pos ha] at h; exact ih h
    · rw [if_neg ha] at h
      cases h
      exact Bool.not_eq_true _ ▸ Bool.of_not_eq_true ha

theorem trimWs_head_false {l : List Char} {c : Char} {t : List Char}
    (h : trimWs l = c :: t) : isWs c = false := by
  unfold trimWs at h
  obtain ⟨r, hr⟩ := (List.rdropWhile_prefix isWs (l.dropWhile isWs))
  rw [h] at hr
  exact dropWhile_head_false hr.symm

theorem trimWs_getLast_false {l : List Char} (h : trimWs l ≠ []) :
    isWs ((trimWs l).getLast h) = false := by
  unfold trimWs at h ⊢
  have := List.rdropWhile_last_not isWs (l.dropWhile isWs) h
  simpa using this

theorem trimWs_eq_self_of_ends {l : List Char}
    (hh : ∀ c t, l = c :: t → isWs c = false)
    (hl : ∀ h : l ≠ [], isWs (l.getLast h) = false) : trimWs l = l := by
  unfold trimWs
  have h1 : l.dropWhile isWs = l := by
    cases l with
    | nil => rfl
    | cons c t =>
      rw [List.dropWhile_cons, if_neg]
      rw [hh c t rfl]
      simp
  rw [h1]
  rw [List.rdropWhile_eq_self_iff]
  intro hne
  rw [hl hne]
  simp

theorem trimWs_idem (l : List Char) : trimWs (trimWs l) = trimWs l := by
  apply trimWs_eq_self_of_ends
  · intro c t h; exact trimWs_head_false h
  · intro h; exact trimWs_getLast_false h

theorem trimWs_eq_self_of_wsfree {l : List Char}
    (h : ∀ c ∈ l, isWs c = false) : trimWs l = l := by
  apply trimWs_eq_self_of_ends
  · intro c t hct; exact h c (hct ▸ List.mem_cons_self c t)
  · intro hne; exact h _ (List.getLast_mem hne)

theorem joinSpace_ne_nil :
    ∀ os : List (List Char), os ≠ [] → (∀ o ∈ os, o ≠ []) →
      joinSpace os ≠ [] := by
  intro os hne hprops
  cases os with
  | nil => exact absurd rfl hne
  | cons o rest =>
    have ho := hprops o (List.mem_cons_self o rest)
    cases rest with
    | nil => exact ho
    | cons o2 rest2 =>
      show o ++ ' ' :: joinSpace (o2 :: rest2) ≠ []
      simp

theorem joinSpace_getLast?_ws :
    ∀ os : List (List Char),
      (∀ o ∈ os, o ≠ [] ∧ ∀ c ∈ o, isWs c = false) →
      ∀ x, (joinSpace os).getLast? = some x → isWs x = false := by
  intro os
  induction os with
  | nil => intro _ x hx; simp [joinSpace] at hx
  | cons o rest ih =>
    intro hprops x hx
    obtain ⟨hone, howf⟩ := hprops o (List.mem_cons_self o rest)
    cases rest with
    | nil =>
      have : x ∈ o := by
        have := List.getLast?_eq_getLast o hone
        rw [show joinSpace [o] = o from rfl, this] at hx
        cases hx
        exact List.getLast_mem hone
      exact howf x this
    | cons o2 rest2 =>
      have hrest := fun y hy => hprops y (List.mem_cons_of_mem o hy)
      have hJne : joinSpace (o2 :: rest2) ≠ [] :=
        joinSpace_ne_nil _ (List.cons_ne_nil _ _) (fun y hy => (hrest y hy).1)
      rw [show joinSpace (o :: o2 :: rest2) = o ++ ' ' :: joinSpace (o2 :: rest2)
        from rfl] at hx
      rw [List.getLast?_append] at hx
      have hsome : (' ' :: joinSpace (o2 :: rest2)).getLast? =
          (joinSpace (o2 :: rest2)).getLast? := by
        cases hJ : joinSpace (o2 :: rest2) with
        | nil => exact absurd hJ hJne
        | cons j js => simp [List.getLast?_cons_cons]
      rw [hsome] at hx
      have : (joinSpace (o2 :: rest2)).getLast?.isSome := by
        rw [List.getLast?_isSome]; exact hJne
      rcases hJv : (joinSpace (o2 :: rest2)).getLast? with _ | v
      · rw [hJv] at this; simp at this
      · rw [hJv] at hx
        simp only [Option.or_some] at hx
        cases hx
        exact ih hrest x hJv

theorem trimWs_joinSpace_eq {os : List (List Char)} (hne : os ≠ [])
    (hprops : ∀ o ∈ os, o ≠ [] ∧ ∀ c ∈ o, isWs c = false) :
    trimWs (joinSpace os) = joinSpace os := by
  apply trimWs_eq_self_of_ends
  · intro c t hct
    cases os with
    | nil => exact absurd rfl hne
    | cons o rest =>
      obtain ⟨hone, howf⟩ := hprops o (List.mem_cons_self o rest)
      have hstart : ∃ s, joinSpace (o :: rest) = o ++ s := by
        cases rest with
        | nil => exact ⟨[], by simp [joinSpace]⟩
        | cons o2 rest2 => exact ⟨' ' :: joinSpace (o2 :: rest2), rfl⟩
      obtain ⟨s, hs⟩ := hstart
      rw [hs] at hct
      cases o with
      | nil => exact absurd rfl hone
      | cons c0 t0 =>
        have : c0 = c := by
          have := congrArg (fun l => l.head?) hct
          simpa using this
        rw [← this]
        exact howf c0 (List.mem_cons_self _ _)
  · intro h
    apply joinSpace_getLast?_ws os hprops
    exact List.getLast?_eq_getLast _ h

theorem splitWs_ne_nil_of_trim {l : List Char} (h : trimWs l ≠ []) :
    splitWs (trimWs l) ≠ [] := by
  cases hc : trimWs l with
  | nil => exact absurd hc h
  | cons c t =>
    have hcw : isWs c = false := trimWs_head_false hc
    unfold splitWs
    rw [List.splitOnP_cons, if_neg (by rw [hcw]; simp)]
    rcases hsp : t.splitOnP isWs with _ | ⟨h1, t1⟩
    · exact absurd hsp (List.splitOnP_ne_nil _ t)
    · rw [List.modifyHead_cons, List.filter_cons]
      simp

theorem parse_original (p : List Char) :
    (TailwindClass.parse p).original = trimWs p := rfl

theorem parse_trimWs (p : List Char) :
    TailwindClass.parse (trimWs p) = TailwindClass.parse p := by
  unfold TailwindClass.parse
  rw [trimWs_idem]

theorem sortClasses_eq {x : List Char} (h : ¬(trimWs x).isEmpty = true) :
    sortClasses x =
      joinSpace ((insSort leTW ((splitWs (trimWs x)).map TailwindClass.parse)).map
        (fun c => c.original)) := by
  unfold sortClasses
  rw [if_neg h]

/-- Shared facts about one pass of `sort_classes` on an input whose trim is
nonempty: the emitted pieces are the parsed originals in stable-sorted
order, they are nonempty and whitespace-free, and re-parsing them gives
back the sorted tokens. -/
theorem sortClasses_pass {x : List Char} (h : ¬(trimWs x).isEmpty = true) :
    ∃ sorted : List TailwindClass,
      sorted.Perm ((splitWs (trimWs x)).map TailwindClass.parse) ∧
      sorted.Pairwise (fun a b => leTW a b = true) ∧
      sortClasses x = joinSpace (sorted.map (fun c => c.original)) ∧
      (sorted.map (fun c => c.original)) ≠ [] ∧
      (∀ o ∈ sorted.map (fun c => c.original), o ≠ [] ∧ ∀ c ∈ o, isWs c = false) ∧
      (sorted.map (fun c => c.original)).map TailwindClass.parse = sorted := by
  have hne : trimWs x ≠ [] := fun hc => h (by rw [hc]; rfl)
  set pieces := splitWs (trimWs x) with hpieces
  have hp : ∀ p ∈ pieces, p ≠ [] ∧ ∀ c ∈ p, isWs c = false :=
    fun p hp => splitWs_pieces _ p hp
  set toks := pieces.map TailwindClass.parse with htoks
  refine ⟨insSort leTW toks, insSort_perm leTW toks,
    insSort_pairwise leTW_total leTW_trans toks, sortClasses_eq h, ?_, ?_, ?_⟩
  · have hpn : pieces ≠ [] := splitWs_ne_nil_of_trim hne
    intro hmap
    have h1 : insSort leTW toks = [] := List.map_eq_nil_iff.mp hmap
    exact hpn (by
      have h3 := insSort_perm leTW toks
      rw [h1] at h3
      have h4 : toks = [] := h3.symm.eq_nil
      rw [htoks] at h4
      exact List.map_eq_nil_iff.mp h4)
  · intro o ho
    rw [List.mem_map] at ho
    obtain ⟨t, ht, hto⟩ := ho
    have ht' : t ∈ toks := ((insSort_perm leTW toks).mem_iff).mp ht
    rw [htoks, List.mem_map] at ht'
    obtain ⟨p, hpmem, hpt⟩ := ht'
    obtain ⟨hpne, hpwf⟩ := hp p hpmem
    have horig : t.original = p := by
      rw [← hpt, parse_original, trimWs_eq_self_of_wsfree hpwf]
    rw [← hto, horig]
    exact ⟨hpne, hpwf⟩
  · rw [List.map_map]
    have : ∀ t ∈ insSort leTW toks,
        (TailwindClass.parse ∘ fun c => c.original) t = id t := by
      intro t ht
      have ht' : t ∈ toks := ((insSort_perm leTW toks).mem_iff).mp ht
      rw [htoks, List.mem_map] at ht'
      obtain ⟨p, hpmem, hpt⟩ := ht'
      obtain ⟨hpne, hpwf⟩ := hp p hpmem
      show TailwindClass.parse t.original = t
      rw [← hpt, parse_original, parse_trimWs]
    rw [List.map_congr_left this, List.map_id]

/-- C3: the sort function is idempotent: for every string `x`,
`sort_classes(sort_classes(x)) = sort_classes(x)`. -/
theorem c3_sortClasses_idempotent :
    ∀ x : List Char, sortClasses (sortClasses x) = sortClasses x := by
  intro x
  by_cases h0 : (trimWs x).isEmpty = true
  · have h1 : sortClasses x = [] := by unfold sortClasses; rw [if_pos h0]
    rw [h1]
    decide
  · obtain ⟨sorted, hperm, hpair, heq, hosne, hosprops, hback⟩ := sortClasses_pass h0
    rw [heq]
    have htrim2 := trimWs_joinSpace_eq hosne hosprops
    have h2 : ¬(trimWs (joinSpace (sorted.map (fun c => c.original)))).isEmpty = true := by
      rw [htrim2]
      intro hc
      exact joinSpace_ne_nil _ hosne (fun o ho => (hosprops o ho).1)
        (List.isEmpty_iff.mp hc)
    rw [sortClasses_eq h2, htrim2, splitWs_join _ hosne hosprops, hback,
      insSort_of_pairwise hpair]

/-- C4: sorting preserves the multiset of whitespace-separated pieces:
the pieces of `sort_classes(x)` are a permutation of the pieces of
`x.trim()`; no class is dropped, added or altered, and duplicates keep
their multiplicity. -/
theorem c4_sortClasses_multiset_preserved :
    ∀ x : List Char,
      (↑(splitWs (sortClasses x)) : Multiset (List Char)) =
        ↑(splitWs (trimWs x)) := by
  intro x
  by_cases h0 : (trimWs x).isEmpty = true
  · have h1 : sortClasses x = [] := by unfold sortClasses; rw [if_pos h0]
    rw [h1, List.isEmpty_iff.mp h0]
  · obtain ⟨sorted, hperm, hpair, heq, hosne, hosprops, hback⟩ := sortClasses_pass h0
    rw [heq, splitWs_join _ hosne hosprops, Multiset.coe_eq_coe]
    have hstep := hperm.map (fun c => c.original)
    refine hstep.trans ?_
    rw [List.map_map]
    have : ∀ p ∈ splitWs (trimWs x),
        ((fun c : TailwindClass => c.original) ∘ TailwindClass.parse) p = id p := by
      intro p hp
      obtain ⟨hpne, hpwf⟩ := splitWs_pieces _ p hp
      show (TailwindClass.parse p).original = p
      rw [parse_original, trimWs_eq_self_of_wsfree hpwf]
    rw [List.map_congr_left this, List.map_id]

theorem get?_last_of_ne_nil {l : List (List Char)} (h : l ≠ []) :
    l.get? (l.length - 1) = some (l.getLastD []) := by
  rw [List.get?_eq_getElem?, ← List.getLast?_eq_getElem?, List.getLastD_eq_getLast?]
  rw [List.getLast?_eq_getLast l h]
  rfl

theorem get?_zero_of_ne_nil {l : List (List Char)} (h : l ≠ []) :
    l.get? 0 = some (l.headD []) := by
  cases l with
  | nil => exact absurd rfl h
  | cons a t => rfl

theorem splitOn_ne_nil' (a : Char) (l : List Char) : l.splitOn a ≠ [] := by
  unfold List.splitOn
  exact List.splitOnP_ne_nil _ l

theorem sliceFrom_of_take_beq {c : List Char} {d : Char}
    (h : (c.take 1 == [d]) = true) : sliceFrom c 1 = some (c.drop 1) := by
  unfold sliceFrom
  rw [if_pos]
  cases c with
  | nil => simp at h
  | cons a t => simp

/-- C10: `TailwindClass::parse` is total on all strings: every fallible
step of the Rust function (the two guarded byte slicings and the two
vector indexings into the colon split, which always yields at least one
segment) succeeds, so the `Option`-checked model returns `some` of the
total model's result on every input, including the empty string and
strings of only `!`, `-` or `:` characters. -/
theorem c10_parse_total :
    ∀ s : List Char,
      TailwindClass.parseChecked s = some (TailwindClass.parse s) := by
  intro s
  unfold TailwindClass.parseChecked TailwindClass.parse
  simp only []
  have hrem : (if ((trimWs s).take 1 == ['!']) = true
      then sliceFrom (trimWs s) 1 else some (trimWs s)) =
      some (if ((trimWs s).take 1 == ['!']) = true
        then (trimWs s).drop 1 else trimWs s) := by
    by_cases himp : ((trimWs s).take 1 == ['!']) = true
    · rw [if_pos himp, if_pos himp, sliceFrom_of_take_beq himp]
    · rw [if_neg himp, if_neg himp]
  rw [hrem]
  simp only []
  set rem := if ((trimWs s).take 1 == ['!']) = true
    then (trimWs s).drop 1 else trimWs s with hremdef
  set parts := rem.splitOn ':' with hpartsdef
  have hpne : parts ≠ [] := splitOn_ne_nil' ':' rem
  have hvb : (if parts.length > 1 then
        match parts.get? (parts.length - 1) with
        | none => none
        | some bp => some (parts.take (parts.length - 1), bp)
      else
        match parts.get? 0 with
        | none => none
        | some p0 => some (([] : List (List Char)), p0)) =
      some (if parts.length > 1
        then (parts.take (parts.length - 1), parts.getLastD [])
        else (([] : List (List Char)), parts.headD [])) := by
    by_cases hl : parts.length > 1
    · rw [if_pos hl, if_pos hl, get?_last_of_ne_nil hpne]
    · rw [if_neg hl, if_neg hl, get?_zero_of_ne_nil hpne]
  rw [hvb]
  simp only []
  set vb := if parts.length > 1
    then (parts.take (parts.length - 1), parts.getLastD [])
    else (([] : List (List Char)), parts.headD []) with hvbdef
  have hbase : (if (vb.2.take 1 == ['-']) = true
      then sliceFrom vb.2 1 else some vb.2) =
      some (if (vb.2.take 1 == ['-']) = true then vb.2.drop 1 else vb.2) := by
    by_cases hneg : (vb.2.take 1 == ['-']) = true
    · rw [if_pos hneg, if_pos hneg, sliceFrom_of_take_beq hneg]
    · rw [if_neg hneg, if_neg hneg]
  rw [hbase]

/-- C2 counterexample: the claim says a colon inside balanced square
brackets does not separate variants, so `[&:nth-child(3)]:flex` would
parse to the single variant `[&:nth-child(3)]`; the code's plain
`split(':')` instead cuts inside the brackets. -/
theorem c2_colon_split_counterexample :
    (TailwindClass.parse (strL "[&:nth-child(3)]:flex")).variants ≠
      [strL "[&:nth-child(3)]"] := by
  decide

/-- C2 amended: `TailwindClass::parse` splits at every colon with no
bracket, parenthesis or quote tracking: `[&:nth-child(3)]:flex` parses to
the two variants `[&` and `nth-child(3)]` with base `flex`, while
`data-[state=open]:bg` (no colon inside the brackets) still parses to the
single variant `data-[state=open]` with base `bg`. -/
theorem c2_colon_split_amended :
    (TailwindClass.parse (strL "[&:nth-child(3)]:flex")).variants =
        [strL "[&", strL "nth-child(3)]"] ∧
    (TailwindClass.parse (strL "[&:nth-child(3)]:flex")).base = strL "flex" ∧
    (TailwindClass.parse (strL "data-[state=open]:bg")).variants =
        [strL "data-[state=open]"] ∧
    (TailwindClass.parse (strL "data-[state=open]:bg")).base = strL "bg" := by
  decide

/-- C5 counterexample: for the JSX input
`<div className={clsx("p-4 m-2")} />` with the default configuration, the
format-aware parser returns the same string-literal span twice (once from
the attribute brace expression, once from the function scan), so its
output is not duplicate-free, contradicting the claimed disjointness. -/
theorem c5_duplicate_span_counterexample :
    ¬(parserParse defaultFuncs defaultAttrs jsxInput FileFormat.Jsx).Nodup := by
  decide

/-- C5 amended: `parse_jsx` concatenates attribute matches and function
matches without de-duplication, so a configured call inside a configured
attribute's brace expression is returned as two coincident spans; only
`extract_all` (which the format-aware parsers do not use) sorts by start
and removes identical `(start, end)` pairs. -/
theorem c5_parse_jsx_amended :
    parserParse defaultFuncs defaultAttrs jsxInput FileFormat.Jsx =
      [⟨22, 29, strL "p-4 m-2"⟩, ⟨22, 29, strL "p-4 m-2"⟩] ∧
    extractAll defaultFuncs defaultAttrs jsxInput =
      [⟨22, 29, strL "p-4 m-2"⟩] := by
  decide

/-- C6 counterexample: the claim says an attribute whose name merely ends
with a configured name (such as `data-class`) yields no span; the
unanchored regex `class=["']([^"']*)["']` matches inside `data-class=`
and yields one. -/
theorem c6_substring_attr_counterexample :
    extractFromAttributes [strL "class"] (strL "<div data-class=\"p-4 m-2\">") =
      [⟨17, 24, strL "p-4 m-2"⟩] := by
  decide

/-- C6 amended: the attribute-name match is case-sensitive but is a plain
substring match (the pattern is not anchored at an identifier boundary):
`data-class="…"` and `myclass="…"` each yield a span when `class` is
configured, while `CLASS="…"` yields none. -/
theorem c6_attr_match_amended :
    extractFromAttributes [strL "class"] (strL "<div data-class=\"p-4 m-2\">") =
      [⟨17, 24, strL "p-4 m-2"⟩] ∧
    extractFromAttributes [strL "class"] (strL "<div myclass=\"p-4 m-2\">") =
      [⟨14, 21, strL "p-4 m-2"⟩] ∧
    extractFromAttributes [strL "class"] (strL "<div CLASS=\"p-4 m-2\">") = [] := by
  decide

/-- C7 counterexample: the claim says an attribute occurrence with
mismatched opening and closing quotes (`class="p-4 m-2'`) is not matched;
the regex's quote class `["']` does not require the two quotes to agree,
so it is matched. -/
theorem c7_quote_counterexample :
    extractFromAttributes [strL "class"] (strL "class=\"p-4 m-2'") =
      [⟨7, 14, strL "p-4 m-2"⟩] := by
  decide

/-- C7 amended: for attribute values the quote characters are only `"`
and `'` — a backtick-enclosed value is not matched — and the opening and
closing quotes need not agree; string literals inside function arguments
additionally accept the backtick (again without requiring a matching
pair). -/
theorem c7_quote_amended :
    extractFromAttributes [strL "class"] (strL "class=`p-4 m-2`") = [] ∧
    extractFromAttributes [strL "class"] (strL "class=\"p-4 m-2'") =
      [⟨7, 14, strL "p-4 m-2"⟩] ∧
    extractFromAttributes [strL "class"] (strL "class=\"p-4 m-2\"") =
      [⟨7, 14, strL "p-4 m-2"⟩] ∧
    extractFromFunctions [strL "clsx"] (strL "clsx(`p-4 m-2`)") =
      [⟨6, 13, strL "p-4 m-2"⟩] := by
  decide

/-- C8 counterexample: the claim says a configured call with a
whitespace-only string argument, `clsx(" ")`, produces no span; the
function-argument extractor only filters empty and `$`-containing
literals, so it produces the whitespace-only span. -/
theorem c8_whitespace_counterexample :
    extractFromFunctions [strL "clsx"] (strL "clsx(\" \")") =
      [⟨6, 7, [' ']⟩] := by
  decide

/-- C8 amended: spans from directly quoted attribute values are never
empty or whitespace-only (the extractor trims and discards those), but
string literals extracted from function arguments (and from attribute
brace expressions) are only filtered for emptiness and `$`, so a
whitespace-only function-argument literal such as `clsx(" ")` does
produce a span. -/
theorem c8_whitespace_amended :
    (∀ attr text : List Char, ∀ m ∈ extractAttrQuoted attr text,
      ¬(trimWs m.content).isEmpty = true) ∧
    extractFromFunctions [strL "clsx"] (strL "clsx(\" \")") =
      [⟨6, 7, [' ']⟩] := by
  constructor
  · intro attr text m hm
    unfold extractAttrQuoted at hm
    rw [List.mem_filterMap] at hm
    obtain ⟨t, _, ht⟩ := hm
    by_cases h : (trimWs t.2.2).isEmpty = true
    · rw [if_pos h] at ht; cases ht
    · rw [if_neg h] at ht
      cases ht
      exact h
  · decide

theorem c8_whitespace_amended_witness :
    ¬(trimWs (strL "p-4 m-2")).isEmpty = true :=
  c8_whitespace_amended.1 (strL "class") (strL "<div class=\"p-4 m-2\">")
    ⟨12, 19, strL "p-4 m-2"⟩ (by decide)

set_option maxRecDepth 10000 in
/-- C1: evaluation of the driver at a failing input.  On the HTML input
`clsx("a  b") <p class="z-10  p-4">` the parser returns its spans out of
start order (the attribute span `[23,32)` first, then the function span
`[6,10)`), and the driver — which performs no sort — replaces the later
span first, then applies its accumulated `-1` offset to the earlier span.
The byte at offset `5` (the opening quote of the `clsx` argument, covered
by no span, before any span so no offset adjustment applies to it) is
changed from `"` to `a`, contradicting byte fidelity outside spans. -/
theorem c1_driver_corruption :
    parserParse defaultFuncs defaultAttrs c1Input FileFormat.Html =
      [⟨23, 32, strL "z-10  p-4"⟩, ⟨6, 10, strL "a  b"⟩] ∧
    formatCore true defaultFuncs defaultAttrs (strL "t.html") c1Input =
      some (some c1Output) ∧
    c1Input[5]? = some '"' ∧
    c1Output[5]? = some 'a' ∧
    ([(23, 32), (6, 10)].all fun r => !(decide (r.1 ≤ 5) && decide (5 < r.2))) = true := by
  refine ⟨by decide, by decide, by decide, by decide, by decide⟩

set_option maxRecDepth 20000 in
/-- C9: evaluation of the Vue driver at a failing input.  On `vueInput`
the parser correctly returns only spans inside the template interior
`[39, 98)`, but the driver replaces the later attribute span `[60,96)`
first (shrinking the buffer by 28 bytes) and then applies the stale
offset to the earlier function span `[43,47)`, overwriting bytes
`[15,19)` — the script literal `"m-1"`, which lies entirely outside the
template — so the script section is not byte-identical. -/
theorem c9_vue_script_corruption :
    extractVueTemplate vueInput = some ⟨39, vueInterior⟩ ∧
    parserParse defaultFuncs defaultAttrs vueInput FileFormat.Vue =
      [⟨60, 96, strL "z-10                             p-4"⟩,
       ⟨43, 47, strL "x  y"⟩] ∧
    ([(60, 96), (43, 47)].all fun r =>
      decide (39 ≤ r.1) && decide (r.2 ≤ 98)) = true ∧
    formatCore true defaultFuncs defaultAttrs (strL "App.vue") vueInput =
      some (some vueOutput) ∧
    (vueInput.drop 14).take 5 = strL "\"m-1\"" ∧
    (vueOutput.drop 14).take 5 = strL "\"x y;" := by
  refine ⟨by decide, by decide, by decide, by decide, by decide, by decide⟩
